import Mathlib

/-!
Shallow embedding of the itinerary scheduling / validation / expense / map
logic of `src/components/ResultView.tsx` and `src/components/InteractiveMap.tsx`
of the jian-tu repository, together with proofs about the claims on that code.

Machine numbers that matter here are small non-negative integers (minutes of
day, integer yuan amounts), embedded as `Nat`; the one signed quantity
(`reserve`) is embedded as `Int`.
-/

namespace JianTu

/-- Numeric value of a decimal digit character (`'0'` has code 48). -/
def digitVal (c : Char) : Nat := c.toNat - 48

/-- Embeds `timeStr.replace('：', ':')` — JavaScript `String.replace` with a *string*
pattern replaces only the FIRST occurrence of the full-width colon. -/
def replaceFirstFullColon : List Char → List Char
  | [] => []
  | c :: rest => if c = '：' then ':' :: rest else c :: replaceFirstFullColon rest

/-- Replacement of EVERY full-width colon, which is what the specification's
wording ("full-width colons are normalized to ASCII colons") describes; kept
separate so the specified behaviour can be compared with
`replaceFirstFullColon`, the behaviour of the source. -/
def replaceAllFullColon : List Char → List Char
  | [] => []
  | c :: rest => (if c = '：' then ':' else c) :: replaceAllFullColon rest

/-- Model of `String.prototype.trim()`: strip whitespace from both ends. -/
def jsTrim (l : List Char) : List Char :=
  ((l.dropWhile Char.isWhitespace).reverse.dropWhile Char.isWhitespace).reverse

/-- One attempt of the regex `/(\d{1,2}):(\d{2})/` anchored at the head of the
list: greedily try a two-digit hour first, backtrack to a one-digit hour; on
success return hour value, minute value and the characters remaining after the
matched token (the global regex continues scanning there). -/
def matchAt : List Char → Option (Nat × Nat × List Char)
  | c1 :: c2 :: c3 :: c4 :: c5 :: rest =>
    if c1.isDigit then
      if c2.isDigit && c3 == ':' && c4.isDigit && c5.isDigit then
        some (digitVal c1 * 10 + digitVal c2, digitVal c4 * 10 + digitVal c5, rest)
      else if c2 == ':' && c3.isDigit && c4.isDigit then
        some (digitVal c1, digitVal c3 * 10 + digitVal c4, c5 :: rest)
      else none
    else none
  | [c1, c2, c3, c4] =>
    if c1.isDigit && c2 == ':' && c3.isDigit && c4.isDigit then
      some (digitVal c1, digitVal c3 * 10 + digitVal c4, [])
    else none
  | _ => none

/-- The scan of `clean.match(/(\d{1,2}):(\d{2})/g)`: repeatedly try `matchAt`
at the current position, advancing one character on failure and past the match
on success.  `fuel` only forces termination: every step consumes at least one
character, so fuel equal to the list length (see `scanTokens`) never runs out
before the list does. -/
def scanTokensF : Nat → List Char → List (Nat × Nat)
  | 0, _ => []
  | _ + 1, [] => []
  | fuel + 1, c :: cs =>
    match matchAt (c :: cs) with
    | some (h, m, rest) => (h, m) :: scanTokensF fuel rest
    | none => scanTokensF fuel cs

/-- All `HH:MM`-shaped tokens of a character list, in order, as (hour, minute)
pairs. -/
def scanTokens (l : List Char) : List (Nat × Nat) := scanTokensF l.length l

/-- The function `toMin` of the source: `h * 60 + m` minutes from midnight. -/
def toMin (t : Nat × Nat) : Nat := t.1 * 60 + t.2

/-- The cleaned character list of a time string: first full-width colon
normalized, then trimmed. -/
def cleanChars (s : String) : List Char := jsTrim (replaceFirstFullColon s.data)

/-- The `HH:MM` tokens the source's regex finds in the cleaned string. -/
def tokensOf (s : String) : List (Nat × Nat) := scanTokens (cleanChars s)

/-- The function `parseTimeMinutes` of `ResultView.tsx` (lines 19–40): `null` for a falsy
input or when no token is found; one token gives a default one-hour interval;
two or more tokens give (first, second), later tokens ignored. -/
def parseTimeMinutes (s : String) : Option (Nat × Nat) :=
  if s.data = [] then none
  else
    match tokensOf s with
    | [] => none
    | [t] => some (toMin t, toMin t + 60)
    | t1 :: t2 :: _ => some (toMin t1, toMin t2)

/-- The `LocationType` of `types.ts`. -/
inductive LocationType where
  | hotel
  | food
  | spot
deriving DecidableEq, Repr

/-- A JavaScript number as far as the map filter observes it: either `NaN`
(e.g. `parseFloat` of non-numeric coordinate text) or a numeric value. -/
inductive JsNum where
  | nan
  | num (x : Int)
deriving DecidableEq, Repr

/-- The `RouteCoordinate` of `types.ts`.  `lat`/`lng` hold the value after the
map's `parseFloat` normalization, so a non-numeric coordinate string is
represented by `JsNum.nan`. -/
structure Entry where
  day : Option String := none
  time : Option String := none
  name : String := ""
  desc : String := ""
  lat : Option JsNum := none
  lng : Option JsNum := none
  type : Option LocationType := none
  cost : Option String := none
deriving DecidableEq, Repr, Inhabited

/-- Embeds `item.day || 'Day 1'` — both an absent and an empty day label fall back to
the default bucket. -/
def effDay (e : Entry) : String :=
  match e.day with
  | none => "Day 1"
  | some d => if d = "" then "Day 1" else d

/-- Embeds `item.time || ''`. -/
def timeStrOf (e : Entry) : String := (e.time).getD ""

/-- The parsed interval of an entry, as `processDaySchedule` computes it. -/
def entryInterval (e : Entry) : Option (Nat × Nat) := parseTimeMinutes (timeStrOf e)

/-- The parsed interval start of an entry, when its time parses. -/
def startOf (e : Entry) : Option Nat := (entryInterval e).map Prod.fst

/-- The `timedItems` wrappers of `processDaySchedule`: each entry whose time
parses, paired with its parsed interval, in original order. -/
def timedOf (items : List Entry) : List (Entry × Nat × Nat) :=
  items.filterMap fun i => (entryInterval i).map fun t => (i, t)

/-- The `untimedItems` of `processDaySchedule`, in original order. -/
def untimedOf (items : List Entry) : List Entry :=
  items.filter fun i => (entryInterval i).isNone

/-- The comparator `(a, b) => a.time.start - b.time.start` as the `≤` test of
a stable sort. -/
def timedLE (a b : Entry × Nat × Nat) : Bool := a.2.1 ≤ b.2.1

/-- Rendering of `item.time` inside a template literal (an absent field would
render as "undefined"; timed entries always carry a time string). -/
def timeDisp (e : Entry) : String :=
  match e.time with
  | some t => t
  | none => "undefined"

/-- The conflict warning string of `processDaySchedule`, naming both entries
and their raw time text. -/
def warnString (c n : Entry) : String :=
  "时间冲突: \"" ++ c.name ++ "\" (" ++ timeDisp c ++ ") 与 \"" ++ n.name ++
    "\" (" ++ timeDisp n ++ ") 时间重叠。"

/-- The validation loop of `processDaySchedule`: for each adjacent pair of the
sorted timed wrappers, warn exactly when `current.time.end > next.time.start`. -/
def overlapWarnings : List (Entry × Nat × Nat) → List String
  | a :: b :: rest =>
    (if a.2.2 > b.2.1 then [warnString a.1 b.1] else []) ++ overlapWarnings (b :: rest)
  | _ => []

/-- The timed wrappers after `timedItems.sort((a, b) => a.time.start -
b.time.start)`.  JavaScript `Array.prototype.sort` is a stable sort, embedded
by `List.mergeSort`. -/
def sortedTimed (items : List Entry) : List (Entry × Nat × Nat) :=
  (timedOf items).mergeSort timedLE

/-- The function `processDaySchedule` of `ResultView.tsx` (lines 43–78).  The `tags`
argument of the source is unused in its body and is omitted here. -/
def processDaySchedule (items : List Entry) : List Entry × List String :=
  ((sortedTimed items).map Prod.fst ++ untimedOf items,
    overlapWarnings (sortedTimed items))

/-- The `dayWarnings` record: day label → warnings, absent when clean. -/
def WarnMap : Type := String → Option (List String)

/-- Embeds `updatedWarnings[day] = warnings`. -/
def setWarn (w : WarnMap) (day : String) (v : List String) : WarnMap :=
  fun x => if x = day then some v else w x

/-- Embeds `delete updatedWarnings[day]`. -/
def delWarn (w : WarnMap) (day : String) : WarnMap :=
  fun x => if x = day then none else w x

/-- One iteration of the `affectedDays.forEach` loop of
`updateItineraryAndWarnings`: re-sort and re-validate one day, reassemble the
item array as the other days' items followed by the day's sorted items, and
set or delete the day's warnings entry. -/
def updateDay (st : List Entry × WarnMap) (day : String) : List Entry × WarnMap :=
  let dayItems := st.1.filter fun i => effDay i == day
  let r := processDaySchedule dayItems
  let otherItems := st.1.filter fun i => !(effDay i == day)
  (otherItems ++ r.1, if 0 < r.2.length then setWarn st.2 day r.2 else delWarn st.2 day)

/-- The function `updateItineraryAndWarnings` of `ResultView.tsx` (lines 519–550). -/
def updateItineraryAndWarnings (newItems : List Entry) (affectedDays : List String)
    (w : WarnMap) : List Entry × WarnMap :=
  affectedDays.foldl updateDay (newItems, w)

/-- The function `handleDrop` of `ResultView.tsx` (lines 596–633), reduced to its store
mutation: a guard for a missing drag source (`draggedItemIndex === null`),
removal of the source entry, reassignment of its `day`, insertion next to the
target entry (dropped when the target is not found, as `indexOf` returning -1
skips the splice), and re-validation of the two affected days. -/
def handleDrop (items : List Entry) (w : WarnMap) (draggedIdx : Nat)
    (targetItem : Entry) (targetDay : String) (insertAfter : Bool) :
    List Entry × WarnMap :=
  match items.get? draggedIdx with
  | none => (items, w)
  | some sourceItem =>
    if sourceItem = targetItem then (items, w)
    else
      let afterRemove := items.eraseIdx draggedIdx
      let oldDay := effDay sourceItem
      let updatedItem := { sourceItem with day := some targetDay }
      let newItems :=
        match afterRemove.findIdx? (fun e => e == targetItem) with
        | some t => afterRemove.insertIdx (if insertAfter then t + 1 else t) updatedItem
        | none => afterRemove
      updateItineraryAndWarnings newItems [oldDay, targetDay] w

/-- The store state touched by the retime flow. -/
structure StoreState where
  itineraryItems : List Entry
  dayWarnings : WarnMap
  editingTimeIndex : Option Nat
  tempTime : String

/-- The function `handleSaveTime` of `ResultView.tsx` (lines 669–685): only when an edit is
pending AND the pending time string is truthy (non-empty) does it patch the
entry's `time` and re-validate the entry's day; otherwise it merely leaves
edit mode. -/
def handleSaveTime (st : StoreState) : StoreState :=
  match st.editingTimeIndex with
  | some idx =>
    if st.tempTime = "" then { st with editingTimeIndex := none }
    else
      let old := (st.itineraryItems.get? idx).getD default
      let affectedDay := effDay old
      let newItems := st.itineraryItems.set idx { old with time := some st.tempTime }
      let r := updateItineraryAndWarnings newItems [affectedDay] st.dayWarnings
      { itineraryItems := r.1, dayWarnings := r.2, editingTimeIndex := none,
        tempTime := st.tempTime }
  | none => { st with editingTimeIndex := none }

/-- Substring test, the semantics of `String.prototype.includes`. -/
def containsSub (sub : List Char) : List Char → Bool
  | [] => sub.isEmpty
  | c :: rest => sub.isPrefixOf (c :: rest) || containsSub sub rest

/-- Numeric value of a decimal digit run (`parseInt`). -/
def digitsToNat (l : List Char) : Nat := l.foldl (fun n c => n * 10 + digitVal c) 0

/-- Embeds `str.match(/(\d+)/)` followed by `parseInt`: the value of the first
maximal digit run, if any. -/
def firstIntOf : List Char → Option Nat
  | [] => none
  | c :: rest =>
    if c.isDigit then some (digitsToNat (c :: rest.takeWhile Char.isDigit))
    else firstIntOf rest

/-- The `totalBudget` memo: strip commas, take the first integer run, else 0.
A falsy (empty) budget string also yields 0 through the no-match branch. -/
def parseBudget (s : String) : Nat :=
  match firstIntOf (s.data.filter fun c => !(c == ',')) with
  | some n => n
  | none => 0

/-- One line item of the expense detail list, as pushed by the source:
`{ name, cost, type, day }` with `type` the display category string. -/
structure LineItem where
  name : String
  cost : Nat
  type : String
  day : String
deriving DecidableEq, Repr

/-- Embeds `item.type || 'spot'` rendered as the category string. -/
def typeStr : Option LocationType → String
  | some LocationType.hotel => "hotel"
  | some LocationType.food => "food"
  | some LocationType.spot => "spot"
  | none => "spot"

/-- The gate of the expense loop: skip a missing/falsy cost, skip costs
containing 免费 (free) or 待定 (undetermined), then extract the first integer
run; `none` means the entry contributes nothing. -/
def costGate (e : Entry) : Option Nat :=
  match e.cost with
  | none => none
  | some cs =>
    if cs = "" then none
    else if containsSub "免费".data cs.data || containsSub "待定".data cs.data then none
    else firstIntOf cs.data

/-- The transit-keyword test of the expense loop. -/
def isTransportName (e : Entry) : Bool :=
  containsSub "交通".data e.name.data || containsSub "前往".data e.name.data ||
    containsSub "接机".data e.name.data || containsSub "送机".data e.name.data

/-- The running totals and line items of the expense loop. -/
structure ExpenseAcc where
  hotelTotal : Nat := 0
  foodTotal : Nat := 0
  spotTotal : Nat := 0
  transportTotal : Nat := 0
  items : List LineItem := []
deriving DecidableEq, Repr

/-- One iteration of `coordinates.forEach` in the `expenseBreakdown` memo:
push the line item (whose display category is overridden to "transport" by a
transit keyword), then add the amount to a total — declared `hotel` and `food`
are tested BEFORE the transit-keyword test. -/
def expenseStep (acc : ExpenseAcc) (item : Entry) : ExpenseAcc :=
  match costGate item with
  | none => acc
  | some val =>
    let isTransport := isTransportName item
    let li : LineItem :=
      { name := item.name, cost := val,
        type := if isTransport then "transport" else typeStr item.type,
        day := effDay item }
    let acc1 := { acc with items := acc.items ++ [li] }
    if item.type = some LocationType.hotel then
      { acc1 with hotelTotal := acc1.hotelTotal + val }
    else if item.type = some LocationType.food then
      { acc1 with foodTotal := acc1.foodTotal + val }
    else if isTransport then
      { acc1 with transportTotal := acc1.transportTotal + val }
    else
      { acc1 with spotTotal := acc1.spotTotal + val }

/-- The value of the `expenseBreakdown` memo. -/
structure ExpenseBreakdownR where
  hotel : Nat
  food : Nat
  spot : Nat
  transport : Nat
  reserve : Int
  trackedTotal : Nat
  items : List LineItem
deriving DecidableEq, Repr

/-- The memo `expenseBreakdown` of `ResultView.tsx` (lines 753–791), with the budget
parsing of the `totalBudget` memo (lines 743–748) inlined as `parseBudget`. -/
def expenseBreakdown (entries : List Entry) (budgetStr : String) : ExpenseBreakdownR :=
  let totalBudget := parseBudget budgetStr
  let acc := entries.foldl expenseStep {}
  let tracked := acc.hotelTotal + acc.foodTotal + acc.spotTotal + acc.transportTotal
  { hotel := acc.hotelTotal, food := acc.foodTotal, spot := acc.spotTotal,
    transport := acc.transportTotal,
    reserve := if (totalBudget : Int) > (tracked : Int) then (totalBudget : Int) - (tracked : Int) else 0,
    trackedTotal := tracked, items := acc.items }

/-- Embeds `isNaN(v)` on a normalized coordinate component. -/
def jsIsNaN : JsNum → Bool
  | JsNum.nan => true
  | JsNum.num _ => false

/-- Embeds `v === 0` on a normalized coordinate component (`NaN === 0` is false). -/
def jsEqZero : JsNum → Bool
  | JsNum.nan => false
  | JsNum.num x => x == 0

/-- Embeds `c !== undefined && !isNaN(c)` for one coordinate component. -/
def definedNotNaN : Option JsNum → Bool
  | none => false
  | some v => !jsIsNaN v

/-- Embeds `c !== 0` for one coordinate component (`undefined !== 0` is true). -/
def notZero : Option JsNum → Bool
  | none => true
  | some v => !jsEqZero v

/-- The `validCoords` filter predicate of `InteractiveMap.tsx` (lines 139–150):
`c.lat !== undefined && !isNaN(c.lat) && c.lng !== undefined && !isNaN(c.lng)
&& c.lat !== 0 && c.lng !== 0`. -/
def keepCoord (e : Entry) : Bool :=
  definedNotNaN e.lat && definedNotNaN e.lng && notZero e.lat && notZero e.lng

/-- The array `validCoords` of `InteractiveMap.tsx`: the marker candidates. -/
def validCoords (items : List Entry) : List Entry := items.filter keepCoord

/-- Whether one coordinate component is present and exactly 0. -/
def isZeroCoordPart : Option JsNum → Bool
  | none => false
  | some v => jsEqZero v

/-- The filter the CLAIM describes: drop only entries lacking a coordinate,
entries with a NaN component, and entries whose coordinate is exactly (0,0);
kept separate from `keepCoord` (the source's filter) for comparison. -/
def claimedKeep (e : Entry) : Bool :=
  definedNotNaN e.lat && definedNotNaN e.lng &&
    !(isZeroCoordPart e.lat && isZeroCoordPart e.lng)

/-- Full-width-colon normalization as the CLAIM describes it: every full-width
colon replaced before matching. -/
def fullWidthNormalized (s : String) : String :=
  String.mk (replaceAllFullColon s.data)

/-- The line item one entry contributes to the expense detail list (closed
form of the push in `expenseStep`). -/
def mkLineItem (e : Entry) : Option LineItem :=
  (costGate e).map fun v =>
    { name := e.name, cost := v,
      type := if isTransportName e then "transport" else typeStr e.type,
      day := effDay e }

/-- What one entry adds to `hotelTotal`: declared `hotel` wins over everything. -/
def hotelContrib (e : Entry) : Nat :=
  match costGate e with
  | some v => if e.type = some LocationType.hotel then v else 0
  | none => 0

/-- What one entry adds to `foodTotal`. -/
def foodContrib (e : Entry) : Nat :=
  match costGate e with
  | some v =>
    if e.type ≠ some LocationType.hotel ∧ e.type = some LocationType.food then v else 0
  | none => 0

/-- What one entry adds to `transportTotal`: the transit keyword routes the
amount here ONLY when the declared category is neither `hotel` nor `food`. -/
def transportContrib (e : Entry) : Nat :=
  match costGate e with
  | some v =>
    if e.type ≠ some LocationType.hotel ∧ e.type ≠ some LocationType.food ∧
        isTransportName e = true then v else 0
  | none => 0

/-- What one entry adds to `spotTotal`. -/
def spotContrib (e : Entry) : Nat :=
  match costGate e with
  | some v =>
    if e.type ≠ some LocationType.hotel ∧ e.type ≠ some LocationType.food ∧
        isTransportName e = false then v else 0
  | none => 0

/-! ## Helper lemmas -/

theorem replaceAllFullColon_not_mem (l : List Char) : '：' ∉ replaceAllFullColon l := by
  induction l with
  | nil => simp [replaceAllFullColon]
  | cons c rest ih =>
    rcases eq_or_ne c '：' with hc | hc
    · subst hc
      simp only [replaceAllFullColon, if_pos rfl, List.mem_cons, not_or]
      exact ⟨by decide, ih⟩
    · simp only [replaceAllFullColon, if_neg hc, List.mem_cons, not_or]
      exact ⟨fun h => hc h.symm, ih⟩

theorem replaceFirstFullColon_of_not_mem {l : List Char} (h : '：' ∉ l) :
    replaceFirstFullColon l = l := by
  induction l with
  | nil => rfl
  | cons c rest ih =>
    simp only [List.mem_cons, not_or] at h
    simp [replaceFirstFullColon, Ne.symm h.1, ih h.2]

theorem replaceAllFullColon_of_not_mem {l : List Char} (h : '：' ∉ l) :
    replaceAllFullColon l = l := by
  induction l with
  | nil => rfl
  | cons c rest ih =>
    simp only [List.mem_cons, not_or] at h
    simp [replaceAllFullColon, Ne.symm h.1, ih h.2]

theorem replaceFirst_eq_replaceAll {l : List Char} (h : l.count '：' ≤ 1) :
    replaceFirstFullColon l = replaceAllFullColon l := by
  induction l with
  | nil => rfl
  | cons c rest ih =>
    by_cases hc : c = '：'
    · subst hc
      rw [List.count_cons_self] at h
      have hz : rest.count '：' = 0 := by omega
      have : '：' ∉ rest := by
        intro hm
        exact absurd hz (by simpa using (List.count_pos_iff.mpr hm).ne')
      simp [replaceFirstFullColon, replaceAllFullColon,
        replaceAllFullColon_of_not_mem this]
    · rw [List.count_cons_of_ne (by simpa using Ne.symm hc)] at h
      simp [replaceFirstFullColon, replaceAllFullColon, hc, ih h]

theorem replaceAllFullColon_nil_iff (l : List Char) :
    replaceAllFullColon l = [] ↔ l = [] := by
  cases l <;> simp [replaceAllFullColon]

/-- Claim C6 — counterexample: the claim "`parse(s)` equals `parse` of `s` with
EVERY full-width colon replaced" fails at `"09：00-11：00"`: the source
replaces only the first full-width colon, so the second token is not found and
the end defaults to start + 60 (600) instead of 660. -/
theorem c6_counterexample :
    parseTimeMinutes "09：00-11：00" ≠
      parseTimeMinutes (fullWidthNormalized "09：00-11：00") := by decide

/-- Claim C6 (amended): `String.replace` with a string pattern replaces only the
FIRST full-width colon; hence `parse(s) = parse(normalize(s))` holds whenever
`s` contains at most one full-width colon. -/
theorem c6_first_colon_normalization (s : String) (h : s.data.count '：' ≤ 1) :
    parseTimeMinutes s = parseTimeMinutes (fullWidthNormalized s) := by
  have hdata : (fullWidthNormalized s).data = replaceAllFullColon s.data := rfl
  have hclean : cleanChars (fullWidthNormalized s) = cleanChars s := by
    unfold cleanChars
    rw [hdata, replaceFirstFullColon_of_not_mem (replaceAllFullColon_not_mem _),
      ← replaceFirst_eq_replaceAll h]
  have htok : tokensOf (fullWidthNormalized s) = tokensOf s := by
    unfold tokensOf
    rw [hclean]
  by_cases hnil : s.data = []
  · have hnil2 : (fullWidthNormalized s).data = [] := by
      rw [hdata, hnil]
      rfl
    simp [parseTimeMinutes, hnil, hnil2]
  · have hnil2 : ¬ (fullWidthNormalized s).data = [] := by
      rw [hdata]
      simpa [replaceAllFullColon_nil_iff] using hnil
    simp only [parseTimeMinutes, hnil, hnil2, if_false, htok]

/-- Witness for `c6_first_colon_normalization` at the one-colon string
`"09：30"`. -/
theorem c6_witness :
    ("09：30" : String).data.count '：' ≤ 1 ∧
      parseTimeMinutes "09：30" = parseTimeMinutes (fullWidthNormalized "09：30") :=
  ⟨by decide, c6_first_colon_normalization "09：30" (by decide)⟩

/-- Claim C8 — the reserve is `max 0 (totalBudget - sum of category totals)`,
hence never negative, and the concrete budget-5000 / lodging-¥800 /
free-food example yields lodging 800, food 0, reserve 4200. -/
theorem c8_reserve_floor :
    (∀ (entries : List Entry) (budgetStr : String),
      (expenseBreakdown entries budgetStr).reserve =
        max 0 ((parseBudget budgetStr : Int) -
          (((expenseBreakdown entries budgetStr).hotel +
            (expenseBreakdown entries budgetStr).food +
            (expenseBreakdown entries budgetStr).spot +
            (expenseBreakdown entries budgetStr).transport : Nat) : Int)) ∧
      0 ≤ (expenseBreakdown entries budgetStr).reserve) ∧
    (expenseBreakdown
        [{ name := "云端全景酒店", type := some LocationType.hotel, cost := some "¥800" },
         { name := "古城小吃", type := some LocationType.food, cost := some "免费" }]
        "5000").hotel = 800 ∧
    (expenseBreakdown
        [{ name := "云端全景酒店", type := some LocationType.hotel, cost := some "¥800" },
         { name := "古城小吃", type := some LocationType.food, cost := some "免费" }]
        "5000").food = 0 ∧
    (expenseBreakdown
        [{ name := "云端全景酒店", type := some LocationType.hotel, cost := some "¥800" },
         { name := "古城小吃", type := some LocationType.food, cost := some "免费" }]
        "5000").reserve = 4200 := by
  refine ⟨fun entries budgetStr => ?_, by decide, by decide, by decide⟩
  have hres : (expenseBreakdown entries budgetStr).reserve =
      if (parseBudget budgetStr : Int) >
          (((expenseBreakdown entries budgetStr).hotel +
            (expenseBreakdown entries budgetStr).food +
            (expenseBreakdown entries budgetStr).spot +
            (expenseBreakdown entries budgetStr).transport : Nat) : Int) then
        (parseBudget budgetStr : Int) -
          (((expenseBreakdown entries budgetStr).hotel +
            (expenseBreakdown entries budgetStr).food +
            (expenseBreakdown entries budgetStr).spot +
            (expenseBreakdown entries budgetStr).transport : Nat) : Int)
      else 0 := rfl
  constructor
  · rw [hres]
    rcases le_or_lt (parseBudget budgetStr : Int)
        (((expenseBreakdown entries budgetStr).hotel +
          (expenseBreakdown entries budgetStr).food +
          (expenseBreakdown entries budgetStr).spot +
          (expenseBreakdown entries budgetStr).transport : Nat) : Int) with hle | hlt
    · rw [if_neg (by omega), max_eq_left (by omega)]
    · rw [if_pos hlt, max_eq_right (by omega)]
  · rw [hres]
    split <;> omega

/-- The source's marker filter, characterized componentwise: an entry is kept
iff both coordinate components are present, numeric, and individually
non-zero. -/
theorem keepCoord_iff (e : Entry) :
    keepCoord e = true ↔
      (∃ a, e.lat = some a ∧ a ≠ JsNum.nan ∧ a ≠ JsNum.num 0) ∧
        (∃ b, e.lng = some b ∧ b ≠ JsNum.nan ∧ b ≠ JsNum.num 0) := by
  obtain ⟨day, time, name, desc, lat, lng, ty, cost⟩ := e
  cases lat with
  | none => simp [keepCoord, definedNotNaN]
  | some a =>
    cases lng with
    | none => simp [keepCoord, definedNotNaN]
    | some b =>
      cases a <;> cases b <;>
        simp [keepCoord, definedNotNaN, notZero, jsIsNaN, jsEqZero, JsNum.num.injEq]

/-- Claim C9 — counterexample: an entry with coordinate (0, 50) is outside all
three excluded classes the claim lists (it has a coordinate, it is numeric,
and it is not exactly (0,0)), yet the source filter drops it, because the
source requires EACH component to be non-zero. -/
theorem c9_counterexample :
    validCoords [{ name := "赤道点", lat := some (JsNum.num 0), lng := some (JsNum.num 50) }] = [] ∧
      claimedKeep { name := "赤道点", lat := some (JsNum.num 0), lng := some (JsNum.num 50) } = true := by
  constructor <;> decide

/-- Claim C9 (amended): the filter retains an entry iff its latitude is present,
numeric and non-zero AND its longitude is present, numeric and non-zero — an
entry with exactly one zero component is also excluded, not only the (0,0)
sentinel. -/
theorem c9_componentwise_filter (items : List Entry) (e : Entry) :
    e ∈ validCoords items ↔
      e ∈ items ∧ (∃ a, e.lat = some a ∧ a ≠ JsNum.nan ∧ a ≠ JsNum.num 0) ∧
        (∃ b, e.lng = some b ∧ b ≠ JsNum.nan ∧ b ≠ JsNum.num 0) := by
  unfold validCoords
  rw [List.mem_filter, keepCoord_iff]

/-- Claim C10 — saving a retime with an empty pending time string only exits
edit mode: items, their order, every entry's time field and all day warnings
are untouched. -/
theorem c10_empty_retime_noop (st : StoreState) (h : st.tempTime = "") :
    handleSaveTime st = { st with editingTimeIndex := none } := by
  unfold handleSaveTime
  cases hidx : st.editingTimeIndex with
  | none => rfl
  | some idx => simp [h]

theorem expenseStep_spec (acc : ExpenseAcc) (e : Entry) :
    expenseStep acc e =
      { hotelTotal := acc.hotelTotal + hotelContrib e,
        foodTotal := acc.foodTotal + foodContrib e,
        spotTotal := acc.spotTotal + spotContrib e,
        transportTotal := acc.transportTotal + transportContrib e,
        items := acc.items ++ (mkLineItem e).toList } := by
  unfold expenseStep hotelContrib foodContrib spotContrib transportContrib mkLineItem
  cases hg : costGate e with
  | none => simp
  | some v =>
    by_cases h1 : e.type = some LocationType.hotel
    · simp [h1]
    · by_cases h2 : e.type = some LocationType.food
      · simp [h1, h2]
      · by_cases h3 : isTransportName e <;> simp [h1, h2, h3]

theorem expense_foldl_spec (entries : List Entry) (acc : ExpenseAcc) :
    entries.foldl expenseStep acc =
      { hotelTotal := acc.hotelTotal + (entries.map hotelContrib).sum,
        foodTotal := acc.foodTotal + (entries.map foodContrib).sum,
        spotTotal := acc.spotTotal + (entries.map spotContrib).sum,
        transportTotal := acc.transportTotal + (entries.map transportContrib).sum,
        items := acc.items ++ entries.filterMap mkLineItem } := by
  induction entries generalizing acc with
  | nil => simp
  | cons e rest ih =>
    rw [List.foldl_cons, expenseStep_spec, ih]
    cases h : mkLineItem e <;>
      simp [List.filterMap_cons, h, Nat.add_assoc]

/-- Claim C7 — counterexample: the entry 交通接驳 (a transit keyword) declared as
`hotel` with cost ¥100 gets a line item of category "transport", but its
amount is added to the HOTEL total, not the transport total, because the
source tests the declared `hotel`/`food` category before the transit-keyword
flag when accumulating totals. -/
theorem c7_counterexample :
    ((expenseBreakdown
        [{ name := "交通接驳", type := some LocationType.hotel, cost := some "¥100" }]
        "0").items.map LineItem.type) = ["transport"] ∧
    (expenseBreakdown
        [{ name := "交通接驳", type := some LocationType.hotel, cost := some "¥100" }]
        "0").hotel = 100 ∧
    (expenseBreakdown
        [{ name := "交通接驳", type := some LocationType.hotel, cost := some "¥100" }]
        "0").transport = 0 := by
  refine ⟨by decide, by decide, by decide⟩

/-- Claim C7 (amended): the transit keyword always overrides the LINE ITEM's
displayed category, but it routes the AMOUNT to the transport total only when
the declared category is neither `hotel` nor `food`; a lodging- or
food-declared entry keeps contributing to its declared total.  The five
equations characterize every total and the line-item list per entry. -/
theorem c7_transport_keyword_precedence :
    (∀ (entries : List Entry) (budgetStr : String),
      (expenseBreakdown entries budgetStr).items = entries.filterMap mkLineItem ∧
      (expenseBreakdown entries budgetStr).hotel = (entries.map hotelContrib).sum ∧
      (expenseBreakdown entries budgetStr).food = (entries.map foodContrib).sum ∧
      (expenseBreakdown entries budgetStr).transport = (entries.map transportContrib).sum ∧
      (expenseBreakdown entries budgetStr).spot = (entries.map spotContrib).sum) ∧
    (∀ e : Entry, isTransportName e = true →
      ∀ li, mkLineItem e = some li → li.type = "transport") := by
  constructor
  · intro entries budgetStr
    have h := expense_foldl_spec entries ({} : ExpenseAcc)
    refine ⟨?_, ?_, ?_, ?_, ?_⟩
    · show (entries.foldl expenseStep {}).items = _
      rw [h]
      simp
    · show (entries.foldl expenseStep {}).hotelTotal = _
      rw [h]
      simp
    · show (entries.foldl expenseStep {}).foodTotal = _
      rw [h]
      simp
    · show (entries.foldl expenseStep {}).transportTotal = _
      rw [h]
      simp
    · show (entries.foldl expenseStep {}).spotTotal = _
      rw [h]
      simp
  · intro e htr li hli
    unfold mkLineItem at hli
    cases hg : costGate e with
    | none => rw [hg] at hli; simp at hli
    | some v =>
      rw [hg] at hli
      simp only [Option.map_some', Option.some.injEq] at hli
      rw [← hli]
      simp [htr]

/-- Witness for `c7_transport_keyword_precedence`: the keyword entry 市区交通
with cost ¥50 and no declared category gets line-item category "transport". -/
theorem c7_witness :
    isTransportName { name := "市区交通", cost := some "¥50" } = true ∧
      mkLineItem { name := "市区交通", cost := some "¥50" } =
        some { name := "市区交通", cost := 50, type := "transport", day := "Day 1" } ∧
      ({ name := "市区交通", cost := 50, type := "transport", day := "Day 1" } : LineItem).type =
        "transport" :=
  ⟨by decide, by decide,
    c7_transport_keyword_precedence.2 { name := "市区交通", cost := some "¥50" } (by decide)
      { name := "市区交通", cost := 50, type := "transport", day := "Day 1" } (by decide)⟩

theorem overlapWarnings_zip :
    ∀ L : List (Entry × Nat × Nat),
      overlapWarnings L =
        (L.zip L.tail).filterMap
          (fun p => if p.1.2.2 > p.2.2.1 then some (warnString p.1.1 p.2.1) else none)
  | [] => by simp [overlapWarnings]
  | [a] => by simp [overlapWarnings]
  | a :: b :: rest => by
    have ih := overlapWarnings_zip (b :: rest)
    simp only [overlapWarnings, List.tail_cons, List.zip_cons_cons, List.filterMap_cons]
    by_cases hc : a.2.2 > b.2.1 <;> simp [hc, ih]

/-- Claim C2 — a warning is emitted for an adjacent pair of the sorted timed
wrappers exactly when the current interval's end exceeds the next interval's
start, and it is the `warnString` naming both entries with their raw time
text; concretely, overlapping A/B yield exactly the one warning naming both,
and touching A/B yield none. -/
theorem c2_adjacent_overlap_warnings :
    (∀ items : List Entry,
      (processDaySchedule items).2 =
        ((sortedTimed items).zip (sortedTimed items).tail).filterMap
          (fun p => if p.1.2.2 > p.2.2.1 then some (warnString p.1.1 p.2.1) else none)) ∧
    (processDaySchedule
        [{ name := "A", time := some "09:00-10:00" },
         { name := "B", time := some "09:30-11:00" }]).2 =
      ["时间冲突: \"A\" (09:00-10:00) 与 \"B\" (09:30-11:00) 时间重叠。"] ∧
    (processDaySchedule
        [{ name := "A", time := some "09:00-10:00" },
         { name := "B", time := some "10:00-11:00" }]).2 = [] := by
  refine ⟨fun _ => overlapWarnings_zip _, ?_, ?_⟩
  · show overlapWarnings (sortedTimed
        [{ name := "A", time := some "09:00-10:00" },
         { name := "B", time := some "09:30-11:00" }]) = _
    rw [sortedTimed, List.mergeSort_of_sorted (by decide)]
    decide
  · show overlapWarnings (sortedTimed
        [{ name := "A", time := some "09:00-10:00" },
         { name := "B", time := some "10:00-11:00" }]) = _
    rw [sortedTimed, List.mergeSort_of_sorted (by decide)]
    decide

theorem mem_timedOf {items : List Entry} {p : Entry × Nat × Nat}
    (h : p ∈ timedOf items) : p.1 ∈ items ∧ entryInterval p.1 = some p.2 := by
  unfold timedOf at h
  rw [List.mem_filterMap] at h
  obtain ⟨a, ha, hfa⟩ := h
  rw [Option.map_eq_some'] at hfa
  obtain ⟨t, ht, hp⟩ := hfa
  cases hp
  exact ⟨ha, ht⟩

theorem map_fst_timedOf (items : List Entry) :
    (timedOf items).map Prod.fst = items.filter fun i => (entryInterval i).isSome := by
  induction items with
  | nil => rfl
  | cons i rest ih =>
    show ((i :: rest).filterMap _).map Prod.fst = _
    rw [List.filterMap_cons]
    cases h : entryInterval i with
    | none => simpa [List.filter_cons, h] using ih
    | some t => simpa [List.filter_cons, h] using ih

theorem untimedOf_eq_filter_not (items : List Entry) :
    untimedOf items = items.filter fun i => !(entryInterval i).isSome := by
  unfold untimedOf
  apply List.filter_congr
  intro x _
  cases entryInterval x <;> rfl

theorem processDaySchedule_perm (items : List Entry) :
    (processDaySchedule items).1.Perm items := by
  have h1 : ((sortedTimed items).map Prod.fst).Perm ((timedOf items).map Prod.fst) :=
    (List.mergeSort_perm (timedOf items) timedLE).map _
  have h2 : ((sortedTimed items).map Prod.fst ++ untimedOf items).Perm
      ((timedOf items).map Prod.fst ++ untimedOf items) := h1.append_right _
  have h3 : (timedOf items).map Prod.fst ++ untimedOf items =
      items.filter (fun i => (entryInterval i).isSome) ++
        items.filter (fun i => !(entryInterval i).isSome) := by
    rw [map_fst_timedOf, untimedOf_eq_filter_not]
  have h4 := List.filter_append_perm (fun i => (entryInterval i).isSome) items
  exact h2.trans (h3 ▸ h4)

theorem updateDay_perm (st : List Entry × WarnMap) (day : String) :
    (updateDay st day).1.Perm st.1 := by
  show ((st.1.filter fun i => !(effDay i == day)) ++
      (processDaySchedule (st.1.filter fun i => effDay i == day)).1).Perm st.1
  have h1 : ((st.1.filter fun i => !(effDay i == day)) ++
      (processDaySchedule (st.1.filter fun i => effDay i == day)).1).Perm
      ((st.1.filter fun i => !(effDay i == day)) ++
        (st.1.filter fun i => effDay i == day)) :=
    (processDaySchedule_perm _).append_left _
  have h2 : ((st.1.filter fun i => !(effDay i == day)) ++
      (st.1.filter fun i => effDay i == day)).Perm
      ((st.1.filter fun i => effDay i == day) ++
        (st.1.filter fun i => !(effDay i == day))) := List.perm_append_comm
  have h3 := List.filter_append_perm (fun i => effDay i == day) st.1
  exact h1.trans (h2.trans h3)

theorem update_foldl_perm (days : List String) (st : List Entry × WarnMap) :
    (days.foldl updateDay st).1.Perm st.1 := by
  induction days generalizing st with
  | nil => exact List.Perm.refl _
  | cons d rest ih => exact (ih (updateDay st d)).trans (updateDay_perm st d)

/-- Claim C3 — no re-validation pass drops an entry: `processDaySchedule`
returns a permutation of its input, and `updateItineraryAndWarnings` keeps
every entry it was given (re-ordering and re-annotating only). -/
theorem c3_no_entry_dropped :
    (∀ items : List Entry, (processDaySchedule items).1.Perm items) ∧
    (∀ (items : List Entry) (days : List String) (w : WarnMap),
      (updateItineraryAndWarnings items days w).1.Perm items) :=
  ⟨processDaySchedule_perm, fun items days w => update_foldl_perm days (items, w)⟩

theorem timedLE_trans : ∀ a b c : Entry × Nat × Nat, timedLE a b → timedLE b c → timedLE a c := by
  intro a b c hab hbc
  simp only [timedLE, decide_eq_true_eq] at *
  omega

theorem timedLE_total : ∀ a b : Entry × Nat × Nat, timedLE a b || timedLE b a := by
  intro a b
  simp only [timedLE]
  by_cases h : a.2.1 ≤ b.2.1
  · simp [h]
  · simp [h]
    omega

theorem sortedTimed_pairwise (items : List Entry) :
    (sortedTimed items).Pairwise (fun a b => timedLE a b = true) := by
  unfold sortedTimed
  exact List.sorted_mergeSort timedLE_trans timedLE_total (timedOf items)

theorem sortedTimed_inv (items : List Entry) :
    ∀ p ∈ sortedTimed items, entryInterval p.1 = some p.2 := by
  intro p hp
  rw [sortedTimed, List.mem_mergeSort] at hp
  exact (mem_timedOf hp).2

theorem map_fst_filter_timed (l : List (Entry × Nat × Nat)) (q : Entry → Bool) :
    (l.filter fun p => q p.1).map Prod.fst = (l.map Prod.fst).filter q := by
  induction l with
  | nil => rfl
  | cons p rest ih => by_cases h : q p.1 <;> simp [List.filter_cons, h, ih]

theorem sortedTimed_filter_start (items : List Entry) (v : Nat) :
    ((sortedTimed items).map Prod.fst).filter (fun i => startOf i == some v) =
      items.filter (fun i => startOf i == some v) := by
  have hcall : ∀ p ∈ (timedOf items).filter (fun p => startOf p.1 == some v), p.2.1 = v := by
    intro p hp
    rw [List.mem_filter] at hp
    have h2 := (mem_timedOf hp.1).2
    have hstart : startOf p.1 = some p.2.1 := by
      rw [startOf, h2]
      rfl
    have hq := hp.2
    rw [hstart] at hq
    simpa using hq
  have hc : ((timedOf items).filter fun p => startOf p.1 == some v).Pairwise
      (fun a b => timedLE a b = true) := by
    apply List.pairwise_of_forall_mem_list
    intro a ha b hb
    simp [timedLE, hcall a ha, hcall b hb]
  have hsub : ((timedOf items).filter fun p => startOf p.1 == some v).Sublist (timedOf items) :=
    List.filter_sublist _
  have h1 := List.sublist_mergeSort timedLE_trans timedLE_total hc hsub
  have hfc : ((timedOf items).filter fun p => startOf p.1 == some v).filter
      (fun p => startOf p.1 == some v) =
      (timedOf items).filter fun p => startOf p.1 == some v := by
    rw [List.filter_filter]
    apply List.filter_congr
    intro x _
    cases h : (startOf x.1 == some v) <;> simp [h]
  have h2 : ((timedOf items).filter fun p => startOf p.1 == some v).Sublist
      ((sortedTimed items).filter fun p => startOf p.1 == some v) := by
    have h3 := h1.filter (fun p => startOf p.1 == some v)
    rwa [hfc] at h3
  have hperm : ((sortedTimed items).filter fun p => startOf p.1 == some v).Perm
      ((timedOf items).filter fun p => startOf p.1 == some v) :=
    (List.mergeSort_perm (timedOf items) timedLE).filter _
  have heq : (sortedTimed items).filter (fun p => startOf p.1 == some v) =
      (timedOf items).filter fun p => startOf p.1 == some v :=
    (h2.eq_of_length hperm.length_eq.symm).symm
  rw [← map_fst_filter_timed, heq,
    map_fst_filter_timed (timedOf items) (fun i => startOf i == some v), map_fst_timedOf,
    List.filter_filter]
  apply List.filter_congr
  intro x _
  cases hq : (startOf x == some v) with
  | false => simp
  | true =>
    have hv : startOf x = some v := by simpa using hq
    rw [startOf] at hv
    cases hE : entryInterval x with
    | none =>
      rw [hE] at hv
      simp at hv
    | some t => simp [hq, hE]

theorem timedOf_map_fst_of_inv {L : List (Entry × Nat × Nat)}
    (h : ∀ p ∈ L, entryInterval p.1 = some p.2) : timedOf (L.map Prod.fst) = L := by
  induction L with
  | nil => rfl
  | cons p rest ih =>
    have hp := h p (by simp)
    show List.filterMap _ (p.1 :: rest.map Prod.fst) = _
    rw [List.filterMap_cons]
    have hrest : timedOf (rest.map Prod.fst) = rest := ih fun q hq => h q (by simp [hq])
    simp only [hp, Option.map_some']
    rw [show ((p.1, p.2) : Entry × Nat × Nat) = p from rfl]
    exact congrArg (p :: ·) hrest

theorem timedOf_untimedOf (items : List Entry) : timedOf (untimedOf items) = [] := by
  rw [timedOf, List.filterMap_eq_nil_iff]
  intro a ha
  rw [untimedOf, List.mem_filter] at ha
  rw [Option.isNone_iff_eq_none.mp ha.2]
  rfl

theorem untimedOf_map_fst_sorted (items : List Entry) :
    untimedOf ((sortedTimed items).map Prod.fst) = [] := by
  rw [untimedOf, List.filter_eq_nil_iff]
  intro a ha
  rcases List.mem_map.mp ha with ⟨p, hp, hpa⟩
  have := sortedTimed_inv items p hp
  rw [← hpa, this]
  simp

theorem untimedOf_idem (items : List Entry) :
    untimedOf (untimedOf items) = untimedOf items := by
  rw [untimedOf, List.filter_eq_self]
  intro a ha
  rw [untimedOf, List.mem_filter] at ha
  exact ha.2

theorem processDaySchedule_idem (items : List Entry) :
    processDaySchedule ((processDaySchedule items).1) = processDaySchedule items := by
  have h1 : timedOf ((processDaySchedule items).1) = sortedTimed items := by
    show timedOf ((sortedTimed items).map Prod.fst ++ untimedOf items) = _
    rw [timedOf, List.filterMap_append, ← timedOf, ← timedOf,
      timedOf_map_fst_of_inv (sortedTimed_inv items), timedOf_untimedOf, List.append_nil]
  have h2 : sortedTimed ((processDaySchedule items).1) = sortedTimed items := by
    rw [sortedTimed, h1, List.mergeSort_of_sorted (sortedTimed_pairwise items)]
  have h3 : untimedOf ((processDaySchedule items).1) = untimedOf items := by
    show untimedOf ((sortedTimed items).map Prod.fst ++ untimedOf items) = _
    rw [untimedOf, List.filter_append, ← untimedOf, ← untimedOf,
      untimedOf_map_fst_sorted, untimedOf_idem, List.nil_append]
  show ((sortedTimed ((processDaySchedule items).1)).map Prod.fst ++
      untimedOf ((processDaySchedule items).1),
      overlapWarnings (sortedTimed ((processDaySchedule items).1))) = _
  rw [h2, h3]
  rfl

/-- Claim C1 — `processDaySchedule` returns the parseable-time entries as a
stable sort by interval start (sorted, and each equal-start class keeps its
original relative order, expressed by the per-start filter equations),
followed by the unparseable-time entries in original order; re-running it on
its own output returns the identical order and identical warnings. -/
theorem c1_stable_sort_idempotent (items : List Entry) :
    ∃ T : List Entry,
      (processDaySchedule items).1 = T ++ untimedOf items ∧
      T.Pairwise (fun a b => ∀ sa sb, startOf a = some sa → startOf b = some sb → sa ≤ sb) ∧
      (∀ v : Nat, T.filter (fun i => startOf i == some v) =
        items.filter (fun i => startOf i == some v)) ∧
      processDaySchedule ((processDaySchedule items).1) = processDaySchedule items := by
  refine ⟨(sortedTimed items).map Prod.fst, rfl, ?_, fun v => sortedTimed_filter_start items v,
    processDaySchedule_idem items⟩
  rw [List.pairwise_map]
  refine List.Pairwise.imp_of_mem ?_ (sortedTimed_pairwise items)
  intro a b ha hb hr sa sb hsa hsb
  have hia := sortedTimed_inv items a ha
  have hib := sortedTimed_inv items b hb
  rw [startOf, hia] at hsa
  rw [startOf, hib] at hsb
  simp only [Option.map_some', Option.some.injEq] at hsa hsb
  subst hsa
  subst hsb
  simpa [timedLE] using hr

theorem filter_eraseIdx_of_pred_false {α : Type} {l : List α} {idx : Nat} {src : α}
    (hsrc : l.get? idx = some src) (p : α → Bool) (hp : p src = false) :
    (l.eraseIdx idx).filter p = l.filter p := by
  induction l generalizing idx with
  | nil => simp at hsrc
  | cons a rest ih =>
    cases idx with
    | zero =>
      have : a = src := by simpa using hsrc
      subst this
      show rest.filter p = (a :: rest).filter p
      rw [List.filter_cons, if_neg (by simp [hp])]
    | succ n =>
      have hsrc2 : rest.get? n = some src := by simpa using hsrc
      show (a :: rest.eraseIdx n).filter p = (a :: rest).filter p
      rw [List.filter_cons, List.filter_cons, ih hsrc2]

theorem filter_insertIdx_of_pred_false {α : Type} (p : α → Bool) (a : α)
    (hp : p a = false) : ∀ (n : Nat) (l : List α),
    (l.insertIdx n a).filter p = l.filter p
  | 0, l => by
    rw [List.insertIdx_zero, List.filter_cons, if_neg (by simp [hp])]
  | n + 1, [] => by
    rw [List.insertIdx_succ_nil]
  | n + 1, b :: rest => by
    rw [List.insertIdx_succ_cons, List.filter_cons, List.filter_cons,
      filter_insertIdx_of_pred_false p a hp n rest]

theorem updateDay_frame (st : List Entry × WarnMap) (day d : String) (h : d ≠ day) :
    (updateDay st day).1.filter (fun i => effDay i == d) =
      st.1.filter (fun i => effDay i == d) ∧ (updateDay st day).2 d = st.2 d := by
  constructor
  · show ((st.1.filter fun i => !(effDay i == day)) ++
        (processDaySchedule (st.1.filter fun i => effDay i == day)).1).filter
        (fun i => effDay i == d) = _
    rw [List.filter_append]
    have h1 : (st.1.filter fun i => !(effDay i == day)).filter (fun i => effDay i == d) =
        st.1.filter (fun i => effDay i == d) := by
      rw [List.filter_filter]
      apply List.filter_congr
      intro x _
      cases hx : (effDay x == d) with
      | false => simp
      | true =>
        have hxd : effDay x = d := by simpa using hx
        have : (effDay x == day) = false := by
          simp [hxd]
          exact fun hh => h hh
        simp [this]
    have h2 : ((processDaySchedule (st.1.filter fun i => effDay i == day)).1).filter
        (fun i => effDay i == d) = [] := by
      rw [List.filter_eq_nil_iff]
      intro x hx
      have hxmem : x ∈ st.1.filter fun i => effDay i == day :=
        (processDaySchedule_perm _).subset hx
      rw [List.mem_filter] at hxmem
      have hxday : effDay x = day := by simpa using hxmem.2
      simp [hxday]
      exact fun hh => h hh.symm
    rw [h1, h2, List.append_nil]
  · show (if 0 < ((processDaySchedule (st.1.filter fun i => effDay i == day)).2).length then
        setWarn st.2 day ((processDaySchedule (st.1.filter fun i => effDay i == day)).2)
      else delWarn st.2 day) d = st.2 d
    split <;> simp [setWarn, delWarn, h]

theorem update_foldl_frame (days : List String) (st : List Entry × WarnMap) (d : String)
    (h : d ∉ days) :
    (days.foldl updateDay st).1.filter (fun i => effDay i == d) =
        st.1.filter (fun i => effDay i == d) ∧
      (days.foldl updateDay st).2 d = st.2 d := by
  induction days generalizing st with
  | nil => exact ⟨rfl, rfl⟩
  | cons day rest ih =>
    rw [List.mem_cons, not_or] at h
    obtain ⟨hf, hw⟩ := updateDay_frame st day d h.1
    obtain ⟨hf2, hw2⟩ := ih (updateDay st day) h.2
    exact ⟨hf2.trans hf, hw2.trans hw⟩

/-- Claim C4 — bounded blast radius: re-validation of a set of affected days
never changes another day's entries, their relative order, or its warnings
entry; in particular a drag-move from one day to another leaves every third
day's entries, order and warnings untouched (day labels are the non-empty
bucket keys, so the destination label is assumed non-empty). -/
theorem c4_bounded_blast_radius :
    (∀ (items : List Entry) (days : List String) (w : WarnMap) (d : String), d ∉ days →
      (updateItineraryAndWarnings items days w).1.filter (fun i => effDay i == d) =
          items.filter (fun i => effDay i == d) ∧
        (updateItineraryAndWarnings items days w).2 d = w d) ∧
    (∀ (items : List Entry) (w : WarnMap) (draggedIdx : Nat) (targetItem : Entry)
        (targetDay : String) (insertAfter : Bool) (d : String) (src : Entry),
      items.get? draggedIdx = some src → d ≠ effDay src → d ≠ targetDay → targetDay ≠ "" →
      (handleDrop items w draggedIdx targetItem targetDay insertAfter).1.filter
          (fun i => effDay i == d) = items.filter (fun i => effDay i == d) ∧
        (handleDrop items w draggedIdx targetItem targetDay insertAfter).2 d = w d) := by
  constructor
  · intro items days w d hd
    exact update_foldl_frame days (items, w) d hd
  · intro items w draggedIdx targetItem targetDay insertAfter d src hsrc hd1 hd2 htd
    by_cases hst : src = targetItem
    · have : handleDrop items w draggedIdx targetItem targetDay insertAfter = (items, w) := by
        unfold handleDrop
        rw [hsrc]
        dsimp only
        rw [if_pos hst]
      rw [this]
      exact ⟨rfl, rfl⟩
    · have hdrop : handleDrop items w draggedIdx targetItem targetDay insertAfter =
          updateItineraryAndWarnings
            (match (items.eraseIdx draggedIdx).findIdx? (fun e => e == targetItem) with
             | some t => (items.eraseIdx draggedIdx).insertIdx (if insertAfter then t + 1 else t)
                 { src with day := some targetDay }
             | none => items.eraseIdx draggedIdx)
            [effDay src, targetDay] w := by
        unfold handleDrop
        rw [hsrc]
        dsimp only
        rw [if_neg hst]
      rw [hdrop]
      have hnotin : d ∉ [effDay src, targetDay] := by simp [hd1, hd2]
      have herase : (items.eraseIdx draggedIdx).filter (fun i => effDay i == d) =
          items.filter (fun i => effDay i == d) := by
        refine filter_eraseIdx_of_pred_false hsrc _ ?_
        simp
        exact fun hh => hd1 hh.symm
      have hupd : effDay { src with day := some targetDay } = targetDay := by
        simp [effDay, htd]
      have hnew : (match (items.eraseIdx draggedIdx).findIdx? (fun e => e == targetItem) with
           | some t => (items.eraseIdx draggedIdx).insertIdx (if insertAfter then t + 1 else t)
               { src with day := some targetDay }
           | none => items.eraseIdx draggedIdx).filter (fun i => effDay i == d) =
          items.filter (fun i => effDay i == d) := by
        cases hidx : (items.eraseIdx draggedIdx).findIdx? (fun e => e == targetItem) with
        | none => exact herase
        | some t =>
          rw [filter_insertIdx_of_pred_false]
          · exact herase
          · simp [hupd]
            exact fun hh => hd2 hh.symm
      obtain ⟨hf, hw⟩ := update_foldl_frame [effDay src, targetDay]
        ((match (items.eraseIdx draggedIdx).findIdx? (fun e => e == targetItem) with
          | some t => (items.eraseIdx draggedIdx).insertIdx (if insertAfter then t + 1 else t)
              { src with day := some targetDay }
          | none => items.eraseIdx draggedIdx), w) d hnotin
      exact ⟨hf.trans hnew, hw⟩

/-- Witness for `c4_bounded_blast_radius`: moving the Day 1 entry of a
three-day itinerary next to the Day 2 entry leaves Day 3's entries and
warnings untouched. -/
theorem c4_witness :
    ([{ name := "a", day := some "Day 1" }, { name := "b", day := some "Day 2" },
        { name := "c", day := some "Day 3" }] : List Entry).get? 0 =
        some { name := "a", day := some "Day 1" } ∧
      ("Day 3" : String) ≠ effDay { name := "a", day := some "Day 1" } ∧
      ("Day 3" : String) ≠ "Day 2" ∧ ("Day 2" : String) ≠ "" ∧
      ((handleDrop
          [{ name := "a", day := some "Day 1" }, { name := "b", day := some "Day 2" },
            { name := "c", day := some "Day 3" }] (fun _ => none) 0
          { name := "b", day := some "Day 2" } "Day 2" true).1.filter
          (fun i => effDay i == "Day 3") =
        ([{ name := "a", day := some "Day 1" }, { name := "b", day := some "Day 2" },
            { name := "c", day := some "Day 3" }] : List Entry).filter
          (fun i => effDay i == "Day 3") ∧
        (handleDrop
          [{ name := "a", day := some "Day 1" }, { name := "b", day := some "Day 2" },
            { name := "c", day := some "Day 3" }] (fun _ => none) 0
          { name := "b", day := some "Day 2" } "Day 2" true).2 "Day 3" =
          (fun _ => (none : Option (List String))) "Day 3") :=
  ⟨by decide, by decide, by decide, by decide,
    c4_bounded_blast_radius.2
      [{ name := "a", day := some "Day 1" }, { name := "b", day := some "Day 2" },
        { name := "c", day := some "Day 3" }] (fun _ => none) 0
      { name := "b", day := some "Day 2" } "Day 2" true "Day 3"
      { name := "a", day := some "Day 1" } (by decide) (by decide) (by decide) (by decide)⟩

theorem isDigit_not_ws {c : Char} (h : c.isDigit = true) : c.isWhitespace = false := by
  by_contra hw
  rw [Bool.not_eq_false] at hw
  simp [Char.isWhitespace] at hw
  rcases hw with ((h1 | h1) | h1) | h1 <;> subst h1 <;> exact absurd h (by decide)

theorem isDigit_ne_fullcolon {c : Char} (h : c.isDigit = true) : c ≠ '：' := by
  intro he
  subst he
  exact absurd h (by decide)

theorem dropWhile_ws_eq_self {l : List Char} (h : ∀ c ∈ l, c.isWhitespace = false) :
    l.dropWhile Char.isWhitespace = l := by
  cases l with
  | nil => rfl
  | cons c rest =>
    have hc := h c (List.mem_cons_self c rest)
    simp [List.dropWhile_cons, hc]

theorem jsTrim_eq_self {l : List Char} (h : ∀ c ∈ l, c.isWhitespace = false) :
    jsTrim l = l := by
  unfold jsTrim
  rw [dropWhile_ws_eq_self h,
    dropWhile_ws_eq_self (fun c hc => h c (List.mem_reverse.mp hc)),
    List.reverse_reverse]

theorem scanTokensF_succ_match {fuel : Nat} {c : Char} {cs rest : List Char} {h m : Nat}
    (hm : matchAt (c :: cs) = some (h, m, rest)) :
    scanTokensF (fuel + 1) (c :: cs) = (h, m) :: scanTokensF fuel rest := by
  simp [scanTokensF, hm]

theorem scanTokensF_succ_fail {fuel : Nat} {c : Char} {cs : List Char}
    (hm : matchAt (c :: cs) = none) :
    scanTokensF (fuel + 1) (c :: cs) = scanTokensF fuel cs := by
  simp [scanTokensF, hm]

/-- Claim C5 — token semantics of `parseTimeMinutes`: zero tokens found in the
cleaned string give `null`; exactly one token gives a one-hour default
interval; two or more tokens give (first, second) with later tokens ignored;
and every literal `"HH:MM-HH:MM"` string made of digits parses to exactly its
two tokens. -/
theorem c5_token_semantics :
    (∀ s : String, tokensOf s = [] → parseTimeMinutes s = none) ∧
    (∀ (s : String) (t : Nat × Nat), tokensOf s = [t] →
      parseTimeMinutes s = some (toMin t, toMin t + 60)) ∧
    (∀ (s : String) (t1 t2 : Nat × Nat) (rest : List (Nat × Nat)),
      tokensOf s = t1 :: t2 :: rest → parseTimeMinutes s = some (toMin t1, toMin t2)) ∧
    (∀ a b c d e f g k : Char, a.isDigit = true → b.isDigit = true → c.isDigit = true →
      d.isDigit = true → e.isDigit = true → f.isDigit = true → g.isDigit = true →
      k.isDigit = true →
      parseTimeMinutes (String.mk [a, b, ':', c, d, '-', e, f, ':', g, k]) =
        some ((digitVal a * 10 + digitVal b) * 60 + (digitVal c * 10 + digitVal d),
          (digitVal e * 10 + digitVal f) * 60 + (digitVal g * 10 + digitVal k))) := by
  have hempty : ∀ s : String, s.data = [] → tokensOf s = [] := by
    intro s hnil
    rw [tokensOf, cleanChars, hnil]
    rfl
  refine ⟨?_, ?_, ?_, ?_⟩
  · intro s h
    by_cases hnil : s.data = [] <;> simp [parseTimeMinutes, hnil, h]
  · intro s t h
    by_cases hnil : s.data = []
    · rw [hempty s hnil] at h
      simp at h
    · simp [parseTimeMinutes, hnil, h]
  · intro s t1 t2 rest h
    by_cases hnil : s.data = []
    · rw [hempty s hnil] at h
      simp at h
    · simp [parseTimeMinutes, hnil, h]
  · intro a b c d e f g k ha hb hc hd he hf hg hk
    have hnws : ∀ x ∈ [a, b, ':', c, d, '-', e, f, ':', g, k], x.isWhitespace = false := by
      intro x hx
      simp only [List.mem_cons, List.not_mem_nil, or_false] at hx
      rcases hx with h1 | h1 | h1 | h1 | h1 | h1 | h1 | h1 | h1 | h1 | h1 <;> subst h1 <;>
        first
          | exact isDigit_not_ws (by assumption)
          | decide
    have hnfc : ('：' : Char) ∉ [a, b, ':', c, d, '-', e, f, ':', g, k] := by
      intro hm
      simp only [List.mem_cons, List.not_mem_nil, or_false] at hm
      rcases hm with h1 | h1 | h1 | h1 | h1 | h1 | h1 | h1 | h1 | h1 | h1 <;>
        first
          | exact isDigit_ne_fullcolon (by assumption) h1.symm
          | exact absurd h1 (by decide)
    have hclean : cleanChars (String.mk [a, b, ':', c, d, '-', e, f, ':', g, k]) =
        [a, b, ':', c, d, '-', e, f, ':', g, k] := by
      show jsTrim (replaceFirstFullColon [a, b, ':', c, d, '-', e, f, ':', g, k]) = _
      rw [replaceFirstFullColon_of_not_mem hnfc, jsTrim_eq_self hnws]
    have hm1 : matchAt (a :: b :: ':' :: c :: d :: '-' :: e :: f :: ':' :: g :: k :: []) =
        some (digitVal a * 10 + digitVal b, digitVal c * 10 + digitVal d,
          '-' :: e :: f :: ':' :: g :: k :: []) := by
      simp [matchAt, ha, hb, hc, hd]
    have hm2 : matchAt ('-' :: e :: f :: ':' :: g :: k :: []) = none := by
      have hdash : ('-' : Char).isDigit = false := by decide
      simp [matchAt, hdash]
    have hm3 : matchAt (e :: f :: ':' :: g :: k :: []) =
        some (digitVal e * 10 + digitVal f, digitVal g * 10 + digitVal k, []) := by
      simp [matchAt, he, hf, hg, hk]
    have htok : tokensOf (String.mk [a, b, ':', c, d, '-', e, f, ':', g, k]) =
        [(digitVal a * 10 + digitVal b, digitVal c * 10 + digitVal d),
          (digitVal e * 10 + digitVal f, digitVal g * 10 + digitVal k)] := by
      rw [tokensOf, hclean]
      show scanTokensF 11 (a :: b :: ':' :: c :: d :: '-' :: e :: f :: ':' :: g :: k :: []) = _
      rw [show (11 : Nat) = 10 + 1 from rfl, scanTokensF_succ_match hm1,
        show (10 : Nat) = 9 + 1 from rfl, scanTokensF_succ_fail hm2,
        show (9 : Nat) = 8 + 1 from rfl, scanTokensF_succ_match hm3]
      rfl
    have hnil : ¬ (String.mk [a, b, ':', c, d, '-', e, f, ':', g, k]).data = [] := by
      simp
    simp [parseTimeMinutes, hnil, htok, toMin]

/-- Witness for `c5_token_semantics` at concrete strings of each class. -/
theorem c5_witness :
    tokensOf "全天" = [] ∧ parseTimeMinutes "全天" = none ∧
      tokensOf "09:30" = [(9, 30)] ∧ parseTimeMinutes "09:30" = some (570, 630) ∧
      ('0' : Char).isDigit = true ∧ ('9' : Char).isDigit = true ∧
      ('1' : Char).isDigit = true ∧ ('3' : Char).isDigit = true ∧
      parseTimeMinutes (String.mk ['0', '9', ':', '0', '0', '-', '1', '0', ':', '3', '0']) =
        some (540, 630) :=
  ⟨by decide, c5_token_semantics.1 "全天" (by decide), by decide,
    c5_token_semantics.2.1 "09:30" (9, 30) (by decide), by decide, by decide, by decide,
    by decide,
    c5_token_semantics.2.2.2 '0' '9' '0' '0' '1' '0' '3' '0' (by decide) (by decide)
      (by decide) (by decide) (by decide) (by decide) (by decide) (by decide)⟩

/-- Witness for `c10_empty_retime_noop` at a concrete one-entry store. -/
theorem c10_witness :
    handleSaveTime
        { itineraryItems := [{ name := "洱海骑行", time := some "09:00" }],
          dayWarnings := fun _ => none, editingTimeIndex := some 0, tempTime := "" } =
      { itineraryItems := [{ name := "洱海骑行", time := some "09:00" }],
        dayWarnings := fun _ => none, editingTimeIndex := none, tempTime := "" } :=
  c10_empty_retime_noop _ rfl

end JianTu
